import Mathlib

/-!
Verification of the read/parse/write core of `hring`
(`src/crates/hring/src/util.rs`): the incremental read-parse loop
`read_and_parse`, the vectored write helper `write_all_list`, and the
semantic-error taxonomy `SemanticError`.

Bytes are modelled as `Nat`.  The `hring_buffet` buffer and fragment-list
abstractions (`RollMut`, `PieceList`) and the connection read/write
capabilities are external collaborators of this core; they are modelled
from the spec's contract (§3, §6), while `read_and_parse`,
`write_all_list` and `SemanticError` are embedded from the source.
-/

namespace Hring

/-- A transport-level error yielded by the underlying connection
(read or write failure).  Its identity is an opaque code. -/
structure TransportError where
  code : Nat
deriving DecidableEq, Repr

/-- Modelled from the spec (§3, §6): the growable receive buffer `RollMut`
owns a *filled* prefix (`data`, bytes received and not yet consumed) and
free capacity (`cap`, space available for the next read). -/
structure RollMut where
  data : List Nat
  cap : Nat
deriving DecidableEq, Repr

/-- Embeds `RollMut::len()`: length of the filled region. -/
def RollMut.len (b : RollMut) : Nat := b.data.length

/-- Modelled from the spec (§6): `filled()` returns the current unconsumed
bytes, without copying. -/
def RollMut.filled (b : RollMut) : List Nat := b.data

/-- Embeds `RollMut::is_empty()`. -/
def RollMut.is_empty (b : RollMut) : Bool := b.data.isEmpty

/-- Modelled from the spec (§6): `keep(remaining)` trims the buffer's
filled region to exactly the given sub-view, preserving backing storage. -/
def RollMut.keep (b : RollMut) (remaining : List Nat) : RollMut :=
  { b with data := remaining }

/-- Modelled from the spec (§6): `grow()` increases free capacity using the
abstraction's own policy; the policy's chunk size is the parameter `gs`. -/
def RollMut.grow (b : RollMut) (gs : Nat) : RollMut :=
  { b with cap := b.cap + gs }

/-- One read event of the connection: either a transport error, or a chunk
of bytes the peer has made available (an empty chunk is end-of-stream). -/
abbrev ReadEvent := Except TransportError (List Nat)

instance {ε β : Type} [DecidableEq ε] [DecidableEq β] : DecidableEq (Except ε β)
  | .ok a, .ok b =>
      if h : a = b then .isTrue (by rw [h])
      else .isFalse (by intro hc; cases hc; exact h rfl)
  | .ok _, .error _ => .isFalse (by intro h; cases h)
  | .error _, .ok _ => .isFalse (by intro h; cases h)
  | .error a, .error b =>
      if h : a = b then .isTrue (by rw [h])
      else .isFalse (by intro hc; cases hc; exact h rfl)

/-- Size measure of a read-event queue, used for termination: bytes still
pending plus one per event. -/
def eventSize : ReadEvent → Nat
  | .ok c => c.length + 1
  | .error _ => 1

def eventsSize (evs : List ReadEvent) : Nat := (evs.map eventSize).sum

/-- Modelled from the spec (§6): `read_into(limit, source)` appends up to
`limit` bytes from the source into the buffer's free capacity and returns
the byte count or a transport error, handing the buffer back.  Bytes the
kernel holds but the call does not deliver (beyond `limit` or the free
capacity) stay queued for the next read. -/
def RollMut.read_into (b : RollMut) (limit : Nat) (evs : List ReadEvent) :
    Except TransportError Nat × RollMut × List ReadEvent :=
  match evs with
  | [] => (.ok 0, b, [])
  | .error e :: rest => (.error e, b, rest)
  | .ok chunk :: rest =>
      let m := min limit b.cap
      let delivered := chunk.take m
      let leftover := chunk.drop m
      (.ok delivered.length,
       { data := b.data ++ delivered, cap := b.cap - delivered.length },
       if leftover.isEmpty then rest else .ok leftover :: rest)

/-- Outcome of the injected grammar function on a buffer view, embedding
`nom::IResult<Roll, Output>`: success with the unconsumed remainder,
`Incomplete` (need more data), or a parse error carrying the offending
input for diagnostics. -/
inductive ParseResult (α : Type) where
  | done (rest : List Nat) (output : α)
  | incomplete
  | failed (input : List Nat)
deriving DecidableEq, Repr

/-- The closed taxonomy of protocol-level (semantic) errors of
`src/crates/hring/src/util.rs`. -/
inductive SemanticError where
  | BufferLimitReachedWhileParsing
deriving DecidableEq, Repr

/-- Embeds `SemanticError::as_http_response`: pure lookup from error kind to the
canned protocol response bytes (ASCII codes of the Rust byte literal). -/
def SemanticError.as_http_response : SemanticError → List Nat
  | .BufferLimitReachedWhileParsing =>
      "HTTP/1.1 431 Request Header Fields Too Large\r\n\r\n".toList.map Char.toNat

/-- The error outcomes of `read_and_parse` (as an `eyre::Result` error).
A transport error from the read is wrapped with the context message
`reading request headers from downstream`; the underlying error value is
carried unchanged. -/
inductive RPError where
  | semantic (e : SemanticError)
  | transport (e : TransportError)
  | unexpectedEof
  | parseError (input : List Nat)
deriving DecidableEq, Repr

lemma read_into_ok (b : RollMut) (limit : Nat) (evs : List ReadEvent)
    (n : Nat) (b' : RollMut) (evs' : List ReadEvent)
    (h : b.read_into limit evs = (.ok n, b', evs')) :
    n ≤ limit ∧ ∃ d : List Nat, d.length = n ∧ b'.data = b.data ++ d := by
  match evs with
  | [] =>
      simp only [RollMut.read_into, Prod.mk.injEq, Except.ok.injEq] at h
      obtain ⟨h1, h2, h3⟩ := h
      exact ⟨h1 ▸ Nat.zero_le _, [], by simp [← h1], by simp [← h2]⟩
  | .error e :: rest =>
      simp [RollMut.read_into] at h
  | .ok chunk :: rest =>
      simp only [RollMut.read_into, Prod.mk.injEq, Except.ok.injEq] at h
      obtain ⟨h1, h2, h3⟩ := h
      refine ⟨?_, chunk.take (min limit b.cap), h1, by simp [← h2]⟩
      have := List.length_take (min limit b.cap) chunk
      omega

lemma read_into_shrinks (b : RollMut) (limit : Nat) (evs : List ReadEvent)
    (n : Nat) (b' : RollMut) (evs' : List ReadEvent)
    (h : b.read_into limit evs = (.ok n, b', evs')) (hn : n ≠ 0) :
    eventsSize evs' < eventsSize evs := by
  match evs with
  | [] =>
      simp only [RollMut.read_into, Prod.mk.injEq, Except.ok.injEq] at h
      omega
  | .error e :: rest =>
      simp [RollMut.read_into] at h
  | .ok chunk :: rest =>
      simp only [RollMut.read_into, Prod.mk.injEq, Except.ok.injEq] at h
      obtain ⟨h1, h2, h3⟩ := h
      have htake := List.length_take (min limit b.cap) chunk
      have hdrop := List.length_drop (min limit b.cap) chunk
      by_cases hd : (chunk.drop (min limit b.cap)).isEmpty
      · rw [← h3, if_pos hd]
        simp only [eventsSize, List.map_cons, List.sum_cons, eventSize]
        omega
      · rw [← h3, if_neg hd]
        have hne : chunk.drop (min limit b.cap) ≠ [] := by
          intro hnil; exact hd (by simp [hnil])
        have hpos : 0 < (chunk.drop (min limit b.cap)).length :=
          List.length_pos.mpr hne
        simp only [eventsSize, List.map_cons, List.sum_cons, eventSize]
        omega

/-- Ghost observations of one `read_and_parse` run: the number of
`read_into` calls issued, the maximum filled length seen at any loop
entry, and the read events still pending on the connection at exit. -/
structure RPGhost where
  reads : Nat
  maxFill : Nat
  rem : List ReadEvent
deriving DecidableEq, Repr

/-- Embedding of `read_and_parse` (src/crates/hring/src/util.rs, lines
9–77).  The injected grammar is `parser`, the connection's pending read
results are `stream`, and `gs` is the buffer abstraction's growth chunk
size.  Besides the source's result
(`eyre::Result<Option<(RollMut, Output)>>`), the embedding returns the
ghost observations of `RPGhost`.  Mirrors the source iteration order
exactly: parse the filled view; on success `keep` the remainder and
return; on a parse error return the diagnostic; on `Incomplete` compute
`read_limit = max_len - len` (`Nat` subtraction; the source returns
before using it whenever `len ≥ max_len`), check the buffer limit, grow
a zero-capacity buffer, read, then handle transport errors and zero-byte
reads (EOF) before looping. -/
def read_and_parse_aux {α : Type} (parser : List Nat → ParseResult α) (gs : Nat)
    (stream : List ReadEvent) (buf : RollMut) (max_len : Nat) :
    Except RPError (Option (RollMut × α)) × RPGhost :=
  let fill0 := buf.len
  match parser buf.filled with
  | .done rest output => (.ok (some (buf.keep rest, output)), ⟨0, fill0, stream⟩)
  | .failed input => (.error (.parseError input), ⟨0, fill0, stream⟩)
  | .incomplete =>
      let read_limit := max_len - buf.len
      if buf.len ≥ max_len then
        (.error (.semantic .BufferLimitReachedWhileParsing), ⟨0, fill0, stream⟩)
      else
        let buf1 := if buf.cap = 0 then buf.grow gs else buf
        match hr : buf1.read_into read_limit stream with
        | (.error e, _, stream') => (.error (.transport e), ⟨1, fill0, stream'⟩)
        | (.ok n, buf2, stream') =>
            if hn : n = 0 then
              if buf2.is_empty then (.ok none, ⟨1, fill0, stream'⟩)
              else (.error .unexpectedEof, ⟨1, fill0, stream'⟩)
            else
              let r := read_and_parse_aux parser gs stream' buf2 max_len
              (r.1, ⟨r.2.reads + 1, max fill0 r.2.maxFill, r.2.rem⟩)
termination_by eventsSize stream
decreasing_by
  exact read_into_shrinks _ _ _ _ _ _ hr hn

/-- A read script made only of successful, nonempty data chunks (no
transport errors, no end-of-stream yet). -/
def okScript (evs : List ReadEvent) : Bool :=
  evs.all fun e => match e with | .ok c => !c.isEmpty | .error _ => false

/-- The bytes a read script still holds, in delivery order. -/
def okJoin (evs : List ReadEvent) : List Nat :=
  match evs with
  | [] => []
  | .ok c :: r => c ++ okJoin r
  | .error _ :: r => okJoin r

/-- The §8 test grammar: accepts the fixed message `P` as a prefix of the
view, returning the remainder; reports `Incomplete` otherwise. -/
def prefGrammar (P : List Nat) (l : List Nat) : ParseResult Unit :=
  if l.take P.length = P then .done (l.drop P.length) () else .incomplete

lemma read_into_conserves (b : RollMut) (limit : Nat) (evs : List ReadEvent)
    (n : Nat) (b' : RollMut) (evs' : List ReadEvent)
    (h : b.read_into limit evs = (.ok n, b', evs')) :
    b'.data ++ okJoin evs' = b.data ++ okJoin evs := by
  match evs with
  | [] =>
      simp only [RollMut.read_into, Prod.mk.injEq, Except.ok.injEq] at h
      obtain ⟨-, h2, h3⟩ := h
      simp [← h2, ← h3, okJoin]
  | .error e :: rest =>
      simp [RollMut.read_into] at h
  | .ok chunk :: rest =>
      simp only [RollMut.read_into, Prod.mk.injEq, Except.ok.injEq] at h
      obtain ⟨-, h2, h3⟩ := h
      have hjoin : okJoin (if (chunk.drop (min limit b.cap)).isEmpty then rest
          else .ok (chunk.drop (min limit b.cap)) :: rest)
          = chunk.drop (min limit b.cap) ++ okJoin rest := by
        by_cases hd : (chunk.drop (min limit b.cap)).isEmpty
        · rw [if_pos hd]
          rw [List.isEmpty_iff] at hd
          simp [hd]
        · rw [if_neg hd, okJoin]
      rw [← h2, ← h3, hjoin, okJoin]
      simp only [← List.append_assoc]
      rw [List.append_assoc b.data, List.take_append_drop]

lemma read_into_okScript (b : RollMut) (limit : Nat) (evs : List ReadEvent)
    (n : Nat) (b' : RollMut) (evs' : List ReadEvent)
    (h : b.read_into limit evs = (.ok n, b', evs')) (hok : okScript evs = true) :
    okScript evs' = true := by
  match evs with
  | [] =>
      simp only [RollMut.read_into, Prod.mk.injEq, Except.ok.injEq] at h
      obtain ⟨-, -, h3⟩ := h
      simpa [← h3] using hok
  | .error e :: rest =>
      simp [RollMut.read_into] at h
  | .ok chunk :: rest =>
      simp only [RollMut.read_into, Prod.mk.injEq, Except.ok.injEq] at h
      obtain ⟨-, -, h3⟩ := h
      have hrest : okScript rest = true := by
        simp only [okScript, List.all_cons, Bool.and_eq_true] at hok
        exact hok.2
      by_cases hd : (chunk.drop (min limit b.cap)).isEmpty
      · rw [← h3, if_pos hd]; exact hrest
      · rw [← h3, if_neg hd]
        simp only [okScript, List.all_cons, Bool.and_eq_true]
        refine ⟨?_, hrest⟩
        simp only [Bool.not_eq_true] at hd
        simp [hd]

lemma read_into_progress (b : RollMut) (limit : Nat) (evs : List ReadEvent)
    (hok : okScript evs = true) (hne : evs ≠ []) (hl : 1 ≤ limit) (hc : 1 ≤ b.cap) :
    ∃ n b' evs', b.read_into limit evs = (.ok n, b', evs') ∧ 1 ≤ n := by
  match evs with
  | [] => exact absurd rfl hne
  | .error e :: rest =>
      simp [okScript] at hok
  | .ok chunk :: rest =>
      refine ⟨(chunk.take (min limit b.cap)).length, _, _, rfl, ?_⟩
      have hchunk : chunk ≠ [] := by
        simp only [okScript, List.all_cons, Bool.and_eq_true, Bool.not_eq_true'] at hok
        simpa [List.isEmpty_iff] using hok.1
      have h1 : 0 < chunk.length := List.length_pos.mpr hchunk
      have := List.length_take (min limit b.cap) chunk
      omega

/-- The result of `read_and_parse` as the source returns it (ghost
observations stripped). -/
def read_and_parse {α : Type} (parser : List Nat → ParseResult α) (gs : Nat)
    (stream : List ReadEvent) (buf : RollMut) (max_len : Nat) :
    Except RPError (Option (RollMut × α)) :=
  (read_and_parse_aux parser gs stream buf max_len).1

section StepLemmas

variable {α : Type} (parser : List Nat → ParseResult α) (gs : Nat)
variable (stream : List ReadEvent) (buf : RollMut) (max_len : Nat)

lemma rp_step_done (rest : List Nat) (out : α)
    (h : parser buf.filled = .done rest out) :
    read_and_parse_aux parser gs stream buf max_len
      = (.ok (some (buf.keep rest, out)), ⟨0, buf.len, stream⟩) := by
  simp [read_and_parse_aux, h]

lemma rp_step_failed (input : List Nat)
    (h : parser buf.filled = .failed input) :
    read_and_parse_aux parser gs stream buf max_len
      = (.error (.parseError input), ⟨0, buf.len, stream⟩) := by
  simp [read_and_parse_aux, h]

lemma rp_step_limit
    (h : parser buf.filled = .incomplete) (hge : max_len ≤ buf.len) :
    read_and_parse_aux parser gs stream buf max_len
      = (.error (.semantic .BufferLimitReachedWhileParsing),
         ⟨0, buf.len, stream⟩) := by
  simp [read_and_parse_aux, h, hge]

lemma rp_step_read_err (e : TransportError) (b1 : RollMut)
    (stream' : List ReadEvent)
    (h : parser buf.filled = .incomplete) (hlt : buf.len < max_len)
    (hr : (if buf.cap = 0 then buf.grow gs else buf).read_into
        (max_len - buf.len) stream = (.error e, b1, stream')) :
    read_and_parse_aux parser gs stream buf max_len
      = (.error (.transport e), ⟨1, buf.len, stream'⟩) := by
  rw [read_and_parse_aux.eq_def]
  simp only [h]
  rw [if_neg (Nat.not_le.mpr hlt)]
  split
  · next e2 b2 s2 heq =>
      rw [hr] at heq
      simp only [Prod.mk.injEq, Except.error.injEq] at heq
      obtain ⟨he, -, hs⟩ := heq
      rw [he, hs]
  · next n2 b2 s2 heq =>
      rw [hr] at heq
      simp at heq

lemma rp_step_eof (buf2 : RollMut) (stream' : List ReadEvent)
    (h : parser buf.filled = .incomplete) (hlt : buf.len < max_len)
    (hr : (if buf.cap = 0 then buf.grow gs else buf).read_into
        (max_len - buf.len) stream = (.ok 0, buf2, stream')) :
    read_and_parse_aux parser gs stream buf max_len
      = (if buf2.is_empty then (.ok none, ⟨1, buf.len, stream'⟩)
         else (.error .unexpectedEof, ⟨1, buf.len, stream'⟩)) := by
  rw [read_and_parse_aux.eq_def]
  simp only [h]
  rw [if_neg (Nat.not_le.mpr hlt)]
  split
  · next e2 b2 s2 heq =>
      rw [hr] at heq
      simp at heq
  · next n2 b2 s2 heq =>
      rw [hr] at heq
      simp only [Prod.mk.injEq, Except.ok.injEq] at heq
      obtain ⟨hn2, hb, hs⟩ := heq
      rw [dif_pos hn2.symm, ← hb, ← hs]

lemma rp_step_loop (n : Nat) (buf2 : RollMut) (stream' : List ReadEvent)
    (h : parser buf.filled = .incomplete) (hlt : buf.len < max_len)
    (hr : (if buf.cap = 0 then buf.grow gs else buf).read_into
        (max_len - buf.len) stream = (.ok n, buf2, stream')) (hn : n ≠ 0) :
    read_and_parse_aux parser gs stream buf max_len
      = ((read_and_parse_aux parser gs stream' buf2 max_len).1,
         ⟨(read_and_parse_aux parser gs stream' buf2 max_len).2.reads + 1,
          max buf.len (read_and_parse_aux parser gs stream' buf2 max_len).2.maxFill,
          (read_and_parse_aux parser gs stream' buf2 max_len).2.rem⟩) := by
  conv_lhs => rw [read_and_parse_aux.eq_def]
  simp only [h]
  rw [if_neg (Nat.not_le.mpr hlt)]
  split
  · next e2 b2 s2 heq =>
      rw [hr] at heq
      simp at heq
  · next n2 b2 s2 heq =>
      rw [hr] at heq
      simp only [Prod.mk.injEq, Except.ok.injEq] at heq
      obtain ⟨hn2, hb, hs⟩ := heq
      rw [dif_neg (hn2 ▸ hn), ← hb, ← hs]

end StepLemmas

lemma eventsSize_eq_zero (evs : List ReadEvent) (h : eventsSize evs = 0) :
    evs = [] := by
  cases evs with
  | nil => rfl
  | cons e r =>
      exfalso
      have : 1 ≤ eventSize e := by cases e <;> simp [eventSize]
      simp only [eventsSize, List.map_cons, List.sum_cons] at h
      omega

lemma rp_run_done (P : List Nat) (gs max_len : Nat) (evs : List ReadEvent)
    (buf : RollMut) (hp : buf.data.take P.length = P) :
    ∃ b' g,
      read_and_parse_aux (prefGrammar P) gs evs buf max_len
        = (.ok (some (b', ())), g) ∧
      P ++ (b'.data ++ okJoin g.rem) = buf.data ++ okJoin evs := by
  refine ⟨buf.keep (buf.data.drop P.length), ⟨0, buf.len, evs⟩, ?_, ?_⟩
  · exact rp_step_done _ _ _ _ _ _ _ (by simp [prefGrammar, RollMut.filled, hp])
  · show P ++ (buf.data.drop P.length ++ okJoin evs) = buf.data ++ okJoin evs
    have h2 : P ++ buf.data.drop P.length = buf.data := by
      nth_rewrite 1 [← hp]
      rw [List.take_append_drop]
    rw [← List.append_assoc, h2]

lemma rp_run_bounded (P : List Nat) (gs max_len : Nat) (hgs : 1 ≤ gs) :
    ∀ N evs buf, eventsSize evs ≤ N → okScript evs = true →
      (buf.data ++ okJoin evs).take P.length = P →
      buf.data.length + (okJoin evs).length < max_len →
      ∃ b' g,
        read_and_parse_aux (prefGrammar P) gs evs buf max_len
          = (.ok (some (b', ())), g) ∧
        P ++ (b'.data ++ okJoin g.rem) = buf.data ++ okJoin evs := by
  intro N
  induction N with
  | zero =>
      intro evs buf hN hok hpre hlen
      have hnil : evs = [] := eventsSize_eq_zero evs (Nat.le_zero.mp hN)
      subst hnil
      simp only [okJoin, List.append_nil] at hpre
      exact rp_run_done P gs max_len [] buf hpre
  | succ N IH =>
      intro evs buf hN hok hpre hlen
      by_cases hp : buf.data.take P.length = P
      · exact rp_run_done P gs max_len evs buf hp
      · have hinc : prefGrammar P buf.filled = .incomplete := by
          simp [prefGrammar, RollMut.filled, hp]
        have hlt : buf.len < max_len := by
          have : (okJoin evs).length ≥ 0 := Nat.zero_le _
          simp only [RollMut.len]
          omega
        have hne : evs ≠ [] := by
          intro hnil
          subst hnil
          simp only [okJoin, List.append_nil] at hpre
          exact hp hpre
        have hb1 : (if buf.cap = 0 then buf.grow gs else buf).data = buf.data := by
          split <;> rfl
        have hc1 : 1 ≤ (if buf.cap = 0 then buf.grow gs else buf).cap := by
          split
          · simp only [RollMut.grow]; omega
          · next hcap => omega
        have hl1 : 1 ≤ max_len - buf.len := by omega
        obtain ⟨n, b2, evs', hr, hn1⟩ :=
          read_into_progress (if buf.cap = 0 then buf.grow gs else buf)
            (max_len - buf.len) evs hok hne hl1 hc1
        have hcons := read_into_conserves _ _ _ _ _ _ hr
        rw [hb1] at hcons
        have hok' := read_into_okScript _ _ _ _ _ _ hr hok
        have hsize : eventsSize evs' ≤ N := by
          have := read_into_shrinks _ _ _ _ _ _ hr (by omega)
          omega
        have hpre' : (b2.data ++ okJoin evs').take P.length = P := by
          rw [hcons]; exact hpre
        have hlen' : b2.data.length + (okJoin evs').length < max_len := by
          have := congrArg List.length hcons
          simp only [List.length_append] at this
          omega
        obtain ⟨b', g', hrec, hcons'⟩ := IH evs' b2 hsize hok' hpre' hlen'
        refine ⟨b', ⟨g'.reads + 1, max buf.len g'.maxFill, g'.rem⟩, ?_, ?_⟩
        · rw [rp_step_loop (prefGrammar P) gs evs buf max_len n b2 evs' hinc hlt hr
            (by omega)]
          rw [hrec]
        · rw [hcons', hcons]

lemma rp_maxFill_step {α : Type} (parser : List Nat → ParseResult α)
    (gs max_len : Nat) (evs : List ReadEvent) (buf : RollMut)
    (hbuf : buf.len ≤ max_len)
    (IH : ∀ evs₂ buf₂, eventsSize evs₂ < eventsSize evs → buf₂.len ≤ max_len →
      (read_and_parse_aux parser gs evs₂ buf₂ max_len).2.maxFill ≤ max_len) :
    (read_and_parse_aux parser gs evs buf max_len).2.maxFill ≤ max_len := by
  cases hp : parser buf.filled with
  | done rest out =>
      rw [rp_step_done parser gs evs buf max_len rest out hp]
      exact hbuf
  | failed input =>
      rw [rp_step_failed parser gs evs buf max_len input hp]
      exact hbuf
  | incomplete =>
      by_cases hge : max_len ≤ buf.len
      · rw [rp_step_limit parser gs evs buf max_len hp hge]
        exact hbuf
      · have hlt : buf.len < max_len := Nat.lt_of_not_le hge
        rcases hret : (if buf.cap = 0 then buf.grow gs else buf).read_into
            (max_len - buf.len) evs with ⟨res, b2, evs'⟩
        cases res with
        | error e =>
            rw [rp_step_read_err parser gs evs buf max_len e b2 evs' hp hlt hret]
            exact hbuf
        | ok n =>
            by_cases hn : n = 0
            · subst hn
              rw [rp_step_eof parser gs evs buf max_len b2 evs' hp hlt hret]
              by_cases he : b2.is_empty
              · rw [if_pos he]; exact hbuf
              · rw [if_neg he]; exact hbuf
            · rw [rp_step_loop parser gs evs buf max_len n b2 evs' hp hlt hret hn]
              obtain ⟨hnle, d, hd, hdata⟩ := read_into_ok _ _ _ _ _ _ hret
              have hb1 : (if buf.cap = 0 then buf.grow gs else buf).data
                  = buf.data := by split <;> rfl
              have hb2len : b2.len ≤ max_len := by
                have h1 : b2.data.length = buf.data.length + n := by
                  rw [hdata, hb1, List.length_append, hd]
                have h2 : buf.len = buf.data.length := rfl
                rw [h2] at hlt
                rw [h2] at hnle
                simp only [RollMut.len]
                omega
              have hrec := IH evs' b2 (read_into_shrinks _ _ _ _ _ _ hret hn) hb2len
              exact max_le hbuf hrec

lemma rp_maxFill {α : Type} (parser : List Nat → ParseResult α)
    (gs max_len : Nat) :
    ∀ N evs buf, eventsSize evs ≤ N → buf.len ≤ max_len →
      (read_and_parse_aux parser gs evs buf max_len).2.maxFill ≤ max_len := by
  intro N
  induction N with
  | zero =>
      intro evs buf hN hbuf
      exact rp_maxFill_step parser gs max_len evs buf hbuf
        (fun evs₂ buf₂ hlt _ => absurd hlt (by omega))
  | succ N IH =>
      intro evs buf hN hbuf
      exact rp_maxFill_step parser gs max_len evs buf hbuf
        (fun evs₂ buf₂ hlt hb => IH evs₂ buf₂ (by omega) hb)

lemma rp_no_limit_step {α : Type} (parser : List Nat → ParseResult α)
    (gs max_len : Nat) (evs : List ReadEvent) (buf : RollMut)
    (hparser : ∀ l, parser l = .incomplete)
    (hlen : buf.data.length + (okJoin evs).length < max_len)
    (IH : ∀ evs₂ buf₂, eventsSize evs₂ < eventsSize evs →
      buf₂.data.length + (okJoin evs₂).length < max_len →
      (read_and_parse_aux parser gs evs₂ buf₂ max_len).1
        ≠ .error (.semantic .BufferLimitReachedWhileParsing)) :
    (read_and_parse_aux parser gs evs buf max_len).1
      ≠ .error (.semantic .BufferLimitReachedWhileParsing) := by
  have hp : parser buf.filled = .incomplete := hparser _
  have hlt : buf.len < max_len := by
    simp only [RollMut.len]
    omega
  rcases hret : (if buf.cap = 0 then buf.grow gs else buf).read_into
      (max_len - buf.len) evs with ⟨res, b2, evs'⟩
  cases res with
  | error e =>
      rw [rp_step_read_err parser gs evs buf max_len e b2 evs' hp hlt hret]
      simp
  | ok n =>
      by_cases hn : n = 0
      · subst hn
        rw [rp_step_eof parser gs evs buf max_len b2 evs' hp hlt hret]
        by_cases he : b2.is_empty
        · rw [if_pos he]; simp
        · rw [if_neg he]; simp
      · rw [rp_step_loop parser gs evs buf max_len n b2 evs' hp hlt hret hn]
        have hcons := read_into_conserves _ _ _ _ _ _ hret
        have hb1 : (if buf.cap = 0 then buf.grow gs else buf).data
            = buf.data := by split <;> rfl
        rw [hb1] at hcons
        have hlen' : b2.data.length + (okJoin evs').length < max_len := by
          have := congrArg List.length hcons
          simp only [List.length_append] at this
          omega
        exact IH evs' b2 (read_into_shrinks _ _ _ _ _ _ hret hn) hlen'

lemma rp_no_limit {α : Type} (parser : List Nat → ParseResult α)
    (gs max_len : Nat) (hparser : ∀ l, parser l = .incomplete) :
    ∀ N evs buf, eventsSize evs ≤ N →
      buf.data.length + (okJoin evs).length < max_len →
      (read_and_parse_aux parser gs evs buf max_len).1
        ≠ .error (.semantic .BufferLimitReachedWhileParsing) := by
  intro N
  induction N with
  | zero =>
      intro evs buf hN hlen
      exact rp_no_limit_step parser gs max_len evs buf hparser hlen
        (fun evs₂ buf₂ hlt _ => absurd hlt (by omega))
  | succ N IH =>
      intro evs buf hN hlen
      exact rp_no_limit_step parser gs max_len evs buf hparser hlen
        (fun evs₂ buf₂ hlt hb => IH evs₂ buf₂ (by omega) hb)

/-- Claim C1: whenever the grammar succeeds on the buffer's filled view
with a parsed value and an unconsumed remainder, `read_and_parse` trims
the filled region to exactly that remainder and returns
`Some(buffer, value)` immediately — zero reads issued, the pending read
stream untouched — for every grammar, buffer state and read sequence;
and, run-level, for the §8 prefix grammar over any chunking of the
input, the parsed message plus the returned filled region plus the
undelivered bytes reassemble the input exactly (no byte lost or
duplicated). -/
theorem claim_C1_success_trims_and_returns :
    (∀ {α : Type} (parser : List Nat → ParseResult α) (gs : Nat)
        (stream : List ReadEvent) (buf : RollMut) (max_len : Nat)
        (rest : List Nat) (out : α),
      parser buf.filled = .done rest out →
      read_and_parse_aux parser gs stream buf max_len
        = (.ok (some (⟨rest, buf.cap⟩, out)), ⟨0, buf.len, stream⟩)) ∧
    (∀ (P : List Nat) (gs max_len : Nat) (evs : List ReadEvent)
        (buf : RollMut),
      1 ≤ gs → okScript evs = true →
      (buf.data ++ okJoin evs).take P.length = P →
      buf.data.length + (okJoin evs).length < max_len →
      ∃ b' g,
        read_and_parse_aux (prefGrammar P) gs evs buf max_len
          = (.ok (some (b', ())), g) ∧
        P ++ (b'.data ++ okJoin g.rem) = buf.data ++ okJoin evs) := by
  constructor
  · intro α parser gs stream buf max_len rest out h
    exact rp_step_done parser gs stream buf max_len rest out h
  · intro P gs max_len evs buf hgs hok hpre hlen
    exact rp_run_bounded P gs max_len hgs (eventsSize evs) evs buf le_rfl
      hok hpre hlen

/-- Witness for C1 at concrete inputs: a grammar consuming two bytes of a
three-byte buffer returns the one-byte remainder with no read; the
prefix grammar for `[1, 2]` over the chunking `[1] / [2, 3]` parses the
message and conserves all delivered bytes. -/
theorem claim_C1_witness :
    read_and_parse_aux (fun l => ParseResult.done (l.drop 2) (9 : Nat)) 1
        [Except.ok [7]] ⟨[1, 2, 3], 4⟩ 10
      = (.ok (some (⟨[3], 4⟩, 9)), ⟨0, 3, [Except.ok [7]]⟩) ∧
    ∃ b' g,
      read_and_parse_aux (prefGrammar [1, 2]) 1
          [Except.ok [1], Except.ok [2, 3]] ⟨[], 0⟩ 10
        = (.ok (some (b', ())), g) ∧
      [1, 2] ++ (b'.data ++ okJoin g.rem)
        = ([] : List Nat) ++ okJoin [Except.ok [1], Except.ok [2, 3]] :=
  ⟨claim_C1_success_trims_and_returns.1
      (fun l => ParseResult.done (l.drop 2) (9 : Nat)) 1 [Except.ok [7]]
      ⟨[1, 2, 3], 4⟩ 10 [3] 9 rfl,
   claim_C1_success_trims_and_returns.2 [1, 2] 1 10
      [Except.ok [1], Except.ok [2, 3]] ⟨[], 0⟩ (by decide) (by decide)
      (by decide) (by decide)⟩

/-- Claim C2: when the grammar reports `Incomplete` while the filled
length already equals or exceeds `max_len`, `read_and_parse` fails with
`SemanticError::BufferLimitReachedWhileParsing` at once: zero reads
issued and the pending read stream untouched, for every read sequence. -/
theorem claim_C2_buffer_limit_stops :
    ∀ {α : Type} (parser : List Nat → ParseResult α) (gs : Nat)
      (stream : List ReadEvent) (buf : RollMut) (max_len : Nat),
      parser buf.filled = .incomplete → max_len ≤ buf.len →
      read_and_parse_aux parser gs stream buf max_len
        = (.error (.semantic .BufferLimitReachedWhileParsing),
           ⟨0, buf.len, stream⟩) := by
  intro α parser gs stream buf max_len h hge
  exact rp_step_limit parser gs stream buf max_len h hge

/-- Witness for C2: a two-byte buffer at `max_len = 2` with an insatiable
grammar fails with the buffer-limit error without touching the pending
read. -/
theorem claim_C2_witness :
    read_and_parse_aux (fun _ => (ParseResult.incomplete : ParseResult Unit))
        3 [Except.ok [9]] ⟨[1, 2], 0⟩ 2
      = (.error (.semantic .BufferLimitReachedWhileParsing),
         ⟨0, 2, [Except.ok [9]]⟩) :=
  claim_C2_buffer_limit_stops (fun _ => ParseResult.incomplete) 3
    [Except.ok [9]] ⟨[1, 2], 0⟩ 2 rfl (by decide)

/-- Claim C3: the loop's read is bounded by
`read_limit = max_len - filled`: any bytes it appends keep the filled
length at or below `max_len`; consequently a run starting with
`filled ≤ max_len` never sees the filled length exceed `max_len` at any
loop entry, and an always-`Incomplete` grammar fed fewer than `max_len`
bytes in total never produces the buffer-limit error. -/
theorem claim_C3_reads_bounded_by_max_len :
    (∀ (gs max_len : Nat) (stream : List ReadEvent) (buf buf2 : RollMut)
        (stream' : List ReadEvent) (n : Nat),
      buf.len < max_len →
      (if buf.cap = 0 then buf.grow gs else buf).read_into
          (max_len - buf.len) stream = (.ok n, buf2, stream') →
      n ≤ max_len - buf.len ∧ buf2.len ≤ max_len) ∧
    (∀ {α : Type} (parser : List Nat → ParseResult α) (gs max_len : Nat)
        (evs : List ReadEvent) (buf : RollMut),
      buf.len ≤ max_len →
      (read_and_parse_aux parser gs evs buf max_len).2.maxFill ≤ max_len) ∧
    (∀ {α : Type} (parser : List Nat → ParseResult α) (gs max_len : Nat)
        (evs : List ReadEvent) (buf : RollMut),
      (∀ l, parser l = .incomplete) →
      buf.data.length + (okJoin evs).length < max_len →
      (read_and_parse_aux parser gs evs buf max_len).1
        ≠ .error (.semantic .BufferLimitReachedWhileParsing)) := by
  refine ⟨?_, ?_, ?_⟩
  · intro gs max_len stream buf buf2 stream' n hlt hr
    obtain ⟨hnle, d, hd, hdata⟩ := read_into_ok _ _ _ _ _ _ hr
    have hb1 : (if buf.cap = 0 then buf.grow gs else buf).data = buf.data := by
      split <;> rfl
    refine ⟨hnle, ?_⟩
    have h1 : buf2.data.length = buf.data.length + n := by
      rw [hdata, hb1, List.length_append, hd]
    have h2 : buf.len = buf.data.length := rfl
    rw [h2] at hlt
    rw [h2] at hnle
    simp only [RollMut.len]
    omega
  · intro α parser gs max_len evs buf hbuf
    exact rp_maxFill parser gs max_len (eventsSize evs) evs buf le_rfl hbuf
  · intro α parser gs max_len evs buf hparser hlen
    exact rp_no_limit parser gs max_len hparser (eventsSize evs) evs buf
      le_rfl hlen

/-- Witness for C3: a capacity-1 buffer holding one byte reads a single
byte out of a three-byte chunk under `read_limit = 2`, staying within
`max_len = 3`; an insatiable grammar over a one-byte feed at
`max_len = 2` keeps the fill at or below the bound and does not raise
the buffer-limit error. -/
theorem claim_C3_witness :
    (1 ≤ 3 - RollMut.len ⟨[1], 1⟩ ∧ RollMut.len ⟨[1, 5], 0⟩ ≤ 3) ∧
    (read_and_parse_aux (fun _ => (ParseResult.incomplete : ParseResult Unit))
        1 [Except.ok [1]] ⟨[], 0⟩ 2).2.maxFill ≤ 2 ∧
    (read_and_parse_aux (fun _ => (ParseResult.incomplete : ParseResult Unit))
        1 [Except.ok [1]] ⟨[], 0⟩ 2).1
      ≠ .error (.semantic .BufferLimitReachedWhileParsing) :=
  ⟨claim_C3_reads_bounded_by_max_len.1 2 3 [Except.ok [5, 6, 7]] ⟨[1], 1⟩
      ⟨[1, 5], 0⟩ [Except.ok [6, 7]] 1 (by decide) (by decide),
   claim_C3_reads_bounded_by_max_len.2.1 (fun _ => ParseResult.incomplete) 1 2
      [Except.ok [1]] ⟨[], 0⟩ (by decide),
   claim_C3_reads_bounded_by_max_len.2.2 (fun _ => ParseResult.incomplete) 1 2
      [Except.ok [1]] ⟨[], 0⟩ (fun _ => rfl) (by decide)⟩

/-- Claim C4: in an iteration where the grammar reported `Incomplete`
(below the buffer limit) and the next read delivers zero bytes, the loop
returns `None` if the buffer is empty at that moment and the
unexpected-EOF error if it is not; either way exactly one read was
issued. -/
theorem claim_C4_eof_vs_truncation :
    ∀ {α : Type} (parser : List Nat → ParseResult α) (gs : Nat)
      (rest : List ReadEvent) (buf : RollMut) (max_len : Nat),
      parser buf.filled = .incomplete → buf.len < max_len →
      (buf.data = [] →
        read_and_parse_aux parser gs (.ok [] :: rest) buf max_len
          = (.ok none, ⟨1, buf.len, rest⟩)) ∧
      (buf.data ≠ [] →
        read_and_parse_aux parser gs (.ok [] :: rest) buf max_len
          = (.error .unexpectedEof, ⟨1, buf.len, rest⟩)) := by
  intro α parser gs rest buf max_len h hlt
  have hb1 : (if buf.cap = 0 then buf.grow gs else buf).data = buf.data := by
    split <;> rfl
  have hr : (if buf.cap = 0 then buf.grow gs else buf).read_into
      (max_len - buf.len) (.ok [] :: rest)
      = (.ok 0, ⟨buf.data, (if buf.cap = 0 then buf.grow gs else buf).cap⟩,
         rest) := by
    simp [RollMut.read_into, hb1]
  rw [rp_step_eof parser gs (.ok [] :: rest) buf max_len _ rest h hlt hr]
  constructor
  · intro hdata
    rw [if_pos (by simp [RollMut.is_empty, hdata])]
  · intro hdata
    rw [if_neg (by simp [RollMut.is_empty, hdata])]

/-- Witness for C4: with an insatiable grammar, a zero-byte read on an
empty buffer returns `None`, and on a buffer holding one byte returns
the unexpected-EOF error. -/
theorem claim_C4_witness :
    read_and_parse_aux (fun _ => (ParseResult.incomplete : ParseResult Unit))
        2 [Except.ok []] ⟨[], 0⟩ 4
      = (.ok none, ⟨1, 0, []⟩) ∧
    read_and_parse_aux (fun _ => (ParseResult.incomplete : ParseResult Unit))
        2 [Except.ok []] ⟨[6], 0⟩ 4
      = (.error .unexpectedEof, ⟨1, 1, []⟩) :=
  ⟨(claim_C4_eof_vs_truncation (fun _ => ParseResult.incomplete) 2 []
      ⟨[], 0⟩ 4 rfl (by decide)).1 rfl,
   (claim_C4_eof_vs_truncation (fun _ => ParseResult.incomplete) 2 []
      ⟨[6], 0⟩ 4 rfl (by decide)).2 (by decide)⟩

/-- Claim C5: when the grammar reports malformed input, `read_and_parse`
returns the parse error immediately — zero reads issued, the pending
read stream untouched — surfacing the grammar's diagnostic input. -/
theorem claim_C5_malformed_fails_immediately :
    ∀ {α : Type} (parser : List Nat → ParseResult α) (gs : Nat)
      (stream : List ReadEvent) (buf : RollMut) (max_len : Nat)
      (input : List Nat),
      parser buf.filled = .failed input →
      read_and_parse_aux parser gs stream buf max_len
        = (.error (.parseError input), ⟨0, buf.len, stream⟩) := by
  intro α parser gs stream buf max_len input h
  exact rp_step_failed parser gs stream buf max_len input h

/-- Witness for C5: a grammar rejecting its whole view fails at once with
that view as the diagnostic, leaving the pending read untouched. -/
theorem claim_C5_witness :
    read_and_parse_aux
        (fun l => (ParseResult.failed l : ParseResult Unit)) 1
        [Except.ok [2]] ⟨[9, 8], 3⟩ 10
      = (.error (.parseError [9, 8]), ⟨0, 2, [Except.ok [2]]⟩) :=
  claim_C5_malformed_fails_immediately (fun l => ParseResult.failed l) 1
    [Except.ok [2]] ⟨[9, 8], 3⟩ 10 [9, 8] rfl

/-- Modelled from the spec (§3, §6): the outgoing fragment list
`PieceList`, an ordered sequence of buffer fragments; each fragment is a
byte sequence. -/
structure PieceList where
  pieces : List (List Nat)
deriving DecidableEq, Repr

/-- Embeds `PieceList::len()`: total byte length over all fragments. -/
def PieceList.len (l : PieceList) : Nat := (l.pieces.map List.length).sum

/-- Embeds `PieceList::num_pieces()`: the fragment count. -/
def PieceList.num_pieces (l : PieceList) : Nat := l.pieces.length

/-- Modelled from the spec (§6): conversion of the fragment list to the
vector of writable buffer descriptors for the scatter-gather call,
preserving order. -/
def PieceList.into_vec (l : PieceList) : List (List Nat) := l.pieces

/-- Outcome of `write_all_list`.  `shortWriteStop` embeds the
`unimplemented!()` hit on a short write: the function stops fatally and
never returns a fragment list in that case. -/
inductive WAResult where
  | ok (l : PieceList)
  | transportErr (e : TransportError)
  | shortWriteStop
deriving DecidableEq, Repr

/-- Embedding of `write_all_list` (src/crates/hring/src/util.rs, lines
81–99).  The connection's write capability is `writev`, mapping the
descriptor vector to bytes written or a transport error.  Besides the
source's result, the embedding returns ghost observations: the total
length and piece count the source computes up front, and the list of
descriptor vectors passed to `writev` (one entry per vectored write
issued).  On `n < len` the source runs `unimplemented!()`; otherwise it
clears the returned vector and hands back the empty fragment list. -/
def write_all_list (writev : List (List Nat) → Except TransportError Nat)
    (list : PieceList) : WAResult × Nat × Nat × List (List (List Nat)) :=
  let len := list.len
  let num_chunks := list.num_pieces
  let v := list.into_vec
  match writev v with
  | .error e => (.transportErr e, len, num_chunks, [v])
  | .ok n =>
      if n < len then (.shortWriteStop, len, num_chunks, [v])
      else (.ok ⟨[]⟩, len, num_chunks, [v])

/-- The receive buffer handed back by a `read_and_parse` outcome, if any:
only the success outcome `Ok(Some(buf, output))` carries one — every
other outcome (clean EOF and all errors) returns no buffer, mirroring
that the Rust signature moves the buffer in and drops it on those paths. -/
def returnedBuffer {α : Type} (r : Except RPError (Option (RollMut × α))) :
    Option RollMut :=
  match r with
  | .ok (some (b, _)) => some b
  | _ => none

/-- The fragment list handed back by a `write_all_list` outcome, if any:
only `Ok(list)` carries one — a transport error or the short-write stop
returns no list. -/
def returnedList (r : WAResult) : Option PieceList :=
  match r with
  | .ok l => some l
  | _ => none

/-- Claim C6: `write_all_list` computes the list's total byte length and
piece count up front, issues exactly one vectored write whose descriptor
vector is the fragments in order, and on a full write (bytes written =
total length) returns the fragment list cleared: empty, length 0, piece
count 0. -/
theorem claim_C6_write_all_accounting :
    ∀ (writev : List (List Nat) → Except TransportError Nat) (l : PieceList),
      ((write_all_list writev l).2.1 = l.len ∧
       (write_all_list writev l).2.2.1 = l.num_pieces ∧
       (write_all_list writev l).2.2.2 = [l.into_vec] ∧
       l.into_vec = l.pieces) ∧
      (writev l.into_vec = .ok l.len →
        (write_all_list writev l).1 = .ok ⟨[]⟩ ∧
        PieceList.len ⟨[]⟩ = 0 ∧ PieceList.num_pieces ⟨[]⟩ = 0) := by
  intro writev l
  constructor
  · rcases h : writev l.into_vec with e | n
    · simp [write_all_list, PieceList.into_vec] at h ⊢
      simp [h]
    · by_cases hlt : n < l.len
      · simp [write_all_list, PieceList.into_vec] at h ⊢
        simp [h, hlt]
      · simp [write_all_list, PieceList.into_vec] at h ⊢
        simp [h, hlt]
  · intro h
    refine ⟨?_, rfl, rfl⟩
    simp [write_all_list, PieceList.into_vec] at h ⊢
    simp [h]

/-- Witness for C6: the spec's example list with fragment lengths
`[10, 0, 5]` reports total 15 and count 3; after a full 15-byte write the
returned list is empty with piece count 0. -/
theorem claim_C6_witness :
    ((write_all_list (fun _ => .ok 15)
        ⟨[List.replicate 10 0, [], List.replicate 5 1]⟩).2.1 = 15 ∧
     (write_all_list (fun _ => .ok 15)
        ⟨[List.replicate 10 0, [], List.replicate 5 1]⟩).2.2.1 = 3 ∧
     (write_all_list (fun _ => .ok 15)
        ⟨[List.replicate 10 0, [], List.replicate 5 1]⟩).2.2.2
        = [[List.replicate 10 0, [], List.replicate 5 1]] ∧
     PieceList.into_vec ⟨[List.replicate 10 0, [], List.replicate 5 1]⟩
        = [List.replicate 10 0, [], List.replicate 5 1]) ∧
    ((write_all_list (fun _ => .ok 15)
        ⟨[List.replicate 10 0, [], List.replicate 5 1]⟩).1 = .ok ⟨[]⟩ ∧
     PieceList.len ⟨[]⟩ = 0 ∧ PieceList.num_pieces ⟨[]⟩ = 0) :=
  ⟨(claim_C6_write_all_accounting (fun _ => .ok 15)
      ⟨[List.replicate 10 0, [], List.replicate 5 1]⟩).1,
   (claim_C6_write_all_accounting (fun _ => .ok 15)
      ⟨[List.replicate 10 0, [], List.replicate 5 1]⟩).2 (by decide)⟩

/-- Claim C7: a vectored write that succeeds but reports fewer bytes than
the fragment list's total is a fatal stop: `write_all_list` never
returns a fragment list in that case, and only the one original write
was issued (no retry for the undelivered suffix). -/
theorem claim_C7_short_write_is_fatal :
    ∀ (writev : List (List Nat) → Except TransportError Nat) (l : PieceList)
      (n : Nat),
      writev l.into_vec = .ok n → n < l.len →
      (write_all_list writev l).1 = .shortWriteStop ∧
      (∀ l' : PieceList, (write_all_list writev l).1 ≠ .ok l') ∧
      (write_all_list writev l).2.2.2 = [l.into_vec] := by
  intro writev l n h hlt
  have hres : write_all_list writev l
      = (.shortWriteStop, l.len, l.num_pieces, [l.into_vec]) := by
    simp [write_all_list, PieceList.into_vec] at h ⊢
    simp [h, hlt]
  rw [hres]
  refine ⟨rfl, ?_, rfl⟩
  intro l' hc
  simp at hc

/-- Witness for C7: writing 7 of 15 bytes hits the fatal stop and no
fragment list is returned. -/
theorem claim_C7_witness :
    (write_all_list (fun _ => .ok 7)
        ⟨[List.replicate 10 0, [], List.replicate 5 1]⟩).1 = .shortWriteStop ∧
    (∀ l' : PieceList,
      (write_all_list (fun _ => .ok 7)
        ⟨[List.replicate 10 0, [], List.replicate 5 1]⟩).1 ≠ .ok l') ∧
    (write_all_list (fun _ => .ok 7)
        ⟨[List.replicate 10 0, [], List.replicate 5 1]⟩).2.2.2
      = [[List.replicate 10 0, [], List.replicate 5 1]] :=
  claim_C7_short_write_is_fatal (fun _ => .ok 7)
    ⟨[List.replicate 10 0, [], List.replicate 5 1]⟩ 7 (by decide) (by decide)

/-- Claim C8: the semantic error taxonomy is closed with exactly the
buffer-limit kind, and `as_http_response` maps it to the literal bytes of
`HTTP/1.1 431 Request Header Fields Too Large` followed by CRLF CRLF. -/
theorem claim_C8_semantic_error_taxonomy :
    (∀ e : SemanticError, e = .BufferLimitReachedWhileParsing) ∧
    SemanticError.as_http_response .BufferLimitReachedWhileParsing
      = [72, 84, 84, 80, 47, 49, 46, 49, 32, 52, 51, 49, 32, 82, 101, 113,
         117, 101, 115, 116, 32, 72, 101, 97, 100, 101, 114, 32, 70, 105,
         101, 108, 100, 115, 32, 84, 111, 111, 32, 76, 97, 114, 103, 101,
         13, 10, 13, 10] := by
  constructor
  · intro e; cases e; rfl
  · rfl

/-- Claim C9: a transport error from the connection read is propagated by
`read_and_parse` carrying the very same underlying error, with no retry
(exactly the one failing read was issued); a transport error from the
vectored write is propagated by `write_all_list` unchanged, with the one
failing write issued. -/
theorem claim_C9_transport_errors_propagate :
    (∀ {α : Type} (parser : List Nat → ParseResult α) (gs : Nat)
        (e : TransportError) (rest : List ReadEvent) (buf : RollMut)
        (max_len : Nat),
      parser buf.filled = .incomplete → buf.len < max_len →
      read_and_parse_aux parser gs (.error e :: rest) buf max_len
        = (.error (.transport e), ⟨1, buf.len, rest⟩)) ∧
    (∀ (writev : List (List Nat) → Except TransportError Nat) (l : PieceList)
        (e : TransportError),
      writev l.into_vec = .error e →
      write_all_list writev l
        = (.transportErr e, l.len, l.num_pieces, [l.into_vec])) := by
  constructor
  · intro α parser gs e rest buf max_len h hlt
    exact rp_step_read_err parser gs (.error e :: rest) buf max_len e _ rest
      h hlt rfl
  · intro writev l e h
    simp [write_all_list, PieceList.into_vec] at h ⊢
    simp [h]

/-- Witness for C9: a failing read (error code 3) surfaces as transport
error 3 after one read; a failing write (error code 4) surfaces as
transport error 4 from the single write. -/
theorem claim_C9_witness :
    read_and_parse_aux (fun _ => (ParseResult.incomplete : ParseResult Unit))
        1 [Except.error ⟨3⟩] ⟨[1], 2⟩ 5
      = (.error (.transport ⟨3⟩), ⟨1, 1, []⟩) ∧
    write_all_list (fun _ => .error ⟨4⟩) ⟨[[1, 2]]⟩
      = (.transportErr ⟨4⟩, 2, 1, [[[1, 2]]]) :=
  ⟨claim_C9_transport_errors_propagate.1 (fun _ => ParseResult.incomplete) 1
      ⟨3⟩ [] ⟨[1], 2⟩ 5 rfl (by decide),
   claim_C9_transport_errors_propagate.2 (fun _ => .error ⟨4⟩) ⟨[[1, 2]]⟩ ⟨4⟩
      rfl⟩

/-- Claim C10: on every outcome of `read_and_parse` other than a
successful parse, no receive buffer is handed back — a buffer is
returned only inside `Ok(Some(..))`; likewise `write_all_list` hands the
fragment list back only inside `Ok(..)`, never on a write error or the
short-write stop. -/
theorem claim_C10_buffer_returned_only_on_success :
    ∀ {α : Type} (parser : List Nat → ParseResult α) (gs : Nat)
      (stream : List ReadEvent) (buf : RollMut) (max_len : Nat)
      (writev : List (List Nat) → Except TransportError Nat) (l : PieceList),
      (∀ b : RollMut,
        returnedBuffer (read_and_parse parser gs stream buf max_len) = some b →
        ∃ out, read_and_parse parser gs stream buf max_len
          = .ok (some (b, out))) ∧
      (read_and_parse parser gs stream buf max_len = .ok none →
        returnedBuffer (read_and_parse parser gs stream buf max_len) = none) ∧
      (∀ e, read_and_parse parser gs stream buf max_len = .error e →
        returnedBuffer (read_and_parse parser gs stream buf max_len) = none) ∧
      (∀ l', returnedList (write_all_list writev l).1 = some l' →
        (write_all_list writev l).1 = .ok l') ∧
      (∀ e, (write_all_list writev l).1 = .transportErr e →
        returnedList (write_all_list writev l).1 = none) ∧
      ((write_all_list writev l).1 = .shortWriteStop →
        returnedList (write_all_list writev l).1 = none) := by
  intro α parser gs stream buf max_len writev l
  refine ⟨?_, ?_, ?_, ?_, ?_, ?_⟩
  · intro b hb
    rcases hres : read_and_parse parser gs stream buf max_len with e | o
    · rw [hres] at hb; simp [returnedBuffer] at hb
    · cases o with
      | none => rw [hres] at hb; simp [returnedBuffer] at hb
      | some p =>
          obtain ⟨b2, out⟩ := p
          rw [hres] at hb
          simp only [returnedBuffer, Option.some.injEq] at hb
          subst hb
          exact ⟨out, rfl⟩
  · intro h; rw [h]; rfl
  · intro e h; rw [h]; rfl
  · intro l' h
    cases hres : (write_all_list writev l).1 with
    | ok l2 =>
        rw [hres] at h
        simp only [returnedList, Option.some.injEq] at h
        rw [h]
    | transportErr e2 => rw [hres] at h; simp [returnedList] at h
    | shortWriteStop => rw [hres] at h; simp [returnedList] at h
  · intro e h; rw [h]; rfl
  · intro h; rw [h]; rfl

/-- Witness for C10: a malformed-input failure hands no buffer back, and
a failed write hands no fragment list back. -/
theorem claim_C10_witness :
    returnedBuffer (read_and_parse
        (fun _ => (ParseResult.failed [] : ParseResult Unit)) 1 []
        ⟨[], 0⟩ 1) = none ∧
    returnedList (write_all_list (fun _ => .error ⟨2⟩) ⟨[[1]]⟩).1 = none :=
  ⟨(claim_C10_buffer_returned_only_on_success
      (fun _ => (ParseResult.failed [] : ParseResult Unit)) 1 [] ⟨[], 0⟩ 1
      (fun _ => .error ⟨2⟩) ⟨[[1]]⟩).2.2.1 (.parseError [])
      (by simp [read_and_parse, read_and_parse_aux, RollMut.filled]),
   (claim_C10_buffer_returned_only_on_success
      (fun _ => (ParseResult.failed [] : ParseResult Unit)) 1 [] ⟨[], 0⟩ 1
      (fun _ => .error ⟨2⟩) ⟨[[1]]⟩).2.2.2.2.1 ⟨2⟩ (by decide)⟩

end Hring
